import Mathlib

/-!
Shallow embedding of the Chicken Foot domino game engine
(file chickenfoot.py): tiles, the boneyard draw pool, the board
tree of nodes, the game state machine of the turn loop, the
opportunity and round-over calculations, and player hands.

Python object mutation is modelled by explicit state passing;
node references held by the game (the current chicken foot) are
modelled as paths into the board tree, so that updates through
aliased references are reflected at every reader.  Python
exceptions become Except values; the absent value None becomes
Option.none.  The randomness of random.choice is modelled by an
explicit pick index supplied by the environment.
-/

/-- In this version of the game, the double blank is worth 50 points. -/
def DOUBLE_BLANK_SCORE : Nat := 50

/-- A domino.  Has two ends with a number of pips on either end. -/
structure Tile where
  a : Nat
  b : Nat
deriving DecidableEq

/-- True if this is a double (source: Tile.is_double). -/
def Tile.is_double (t : Tile) : Bool := t.a == t.b

/-- The ends of the tile (source: Tile.ends returns the pair (a, b)). -/
def Tile.ends (t : Tile) : List Nat := [t.a, t.b]

/-- Scoring value of this tile: the sum of its pips, unless the raw
score is 0, in which case the double blank constant (source: Tile.value). -/
def Tile.value (t : Tile) : Nat :=
  if t.a + t.b = 0 then DOUBLE_BLANK_SCORE else t.a + t.b

/-- Every pair (a, b) such that a ≤ b and b ≤ m, enumerated with b
in the outer loop (source: factorial_combinations). -/
def factorial_combinations (m : Nat) : List (Nat × Nat) :=
  (List.range (m+1)).flatMap (fun b => (List.range (b+1)).map (fun a => (a, b)))

namespace Boneyard

/-- The initial contents of the boneyard for a given set size
(source: Boneyard.__init__). -/
def init (set_size : Nat) : List Tile :=
  (factorial_combinations set_size).map (fun p => Tile.mk p.1 p.2)

/-- Pick one tile from the boneyard, remove it, and return it;
None if there are no tiles left (source: Boneyard.draw).  The random
choice is modelled by the pick index, reduced modulo the pool size. -/
def draw (pool : List Tile) (pick : Nat) : Option Tile × List Tile :=
  if pool.isEmpty then (none, pool)
  else (pool[pick % pool.length]?, pool.eraseIdx (pick % pool.length))

/-- Repeatedly draw from the pool, one pick per requested draw,
returning the list of draw results and the remaining pool. -/
def drawSeq : List Tile → List Nat → List (Option Tile) × List Tile
  | pool, [] => ([], pool)
  | pool, pick :: picks =>
    let d := draw pool pick
    let rest := drawSeq d.2 picks
    (d.1 :: rest.1, rest.2)

end Boneyard

/-- Tile orientation within the board tree: NORMAL has the a end
facing the root, INVERTED has the a end facing away (source: Orientation). -/
inductive Orient where
  | NORMAL
  | INVERTED
deriving DecidableEq

/-- The Python exceptions raised by the engine: NodeFullException from
Node.add_child, ValueError from Node.add_child and
Node.find_attach_position, and the AttributeError that dereferencing
None would raise. -/
inductive PyError where
  | nodeFull
  | valueError
  | attrError
deriving DecidableEq

/-- A node in the tree of the playing field: a tile plus an
orientation, a maximum child count and an ordered list of children
(source: Node). -/
inductive Node where
  | mk (tile : Tile) (max_children : Nat) (orientation : Orient) (children : List Node)

def Node.tile : Node → Tile
  | .mk t _ _ _ => t

def Node.max_children : Node → Nat
  | .mk _ m _ _ => m

def Node.orientation : Node → Orient
  | .mk _ _ o _ => o

def Node.children : Node → List Node
  | .mk _ _ _ cs => cs

/-- The number of pips on the side furthest from the root, i.e. the
side to which other tiles can be attached (source: Node.bottom). -/
def Node.bottom (n : Node) : Nat :=
  if n.orientation = Orient.NORMAL then n.tile.b else n.tile.a

/-- Build a new child node for the tile and attach it under the node;
capacity error if the node is full, mismatch error if neither end of
the tile matches the bottom (source: Node.add_child).  Returns the
updated parent together with the newly created child. -/
def Node.add_child (n : Node) (t : Tile) : Except PyError (Node × Node) :=
  if n.children.length = n.max_children then .error .nodeFull
  else if n.bottom ∈ t.ends then
    let child : Node := Node.mk t (if t.is_double then 3 else 1)
      (if n.bottom = t.a then Orient.NORMAL else Orient.INVERTED) []
    .ok (Node.mk n.tile n.max_children n.orientation (n.children ++ [child]), child)
  else .error .valueError

mutual

/-- The nodes at the bottom ends of the tree, in depth-first
left-to-right order (source: Node.leaves). -/
def Node.leaves : Node → List Node
  | .mk t m o cs => if cs.isEmpty then [Node.mk t m o cs] else Node.leavesList cs

/-- Concatenation of the leaves of each node of a list, in order. -/
def Node.leavesList : List Node → List Node
  | [] => []
  | c :: cs => c.leaves ++ Node.leavesList cs

end

/-- The leaf node under which the given tile should be added: the
first leaf, in the order of Node.leaves, whose bottom is among the
ends of the tile; none models the ValueError when the tile cannot be
attached anywhere (source: Node.find_attach_position). -/
def Node.find_attach_position (n : Node) (t : Tile) : Option Node :=
  n.leaves.find? (fun l => decide (l.bottom ∈ t.ends))

/-- Follow a path of child indices down from a node.  A path models a
Python reference to a node inside the tree. -/
def Node.getPath : Node → List Nat → Option Node
  | n, [] => some n
  | n, i :: rest =>
    match n.children[i]? with
    | none => none
    | some c => Node.getPath c rest

/-- Perform Node.add_child at the node denoted by the path, returning
the rebuilt tree together with the path of the newly created child.
This models the in-place mutation of the Python tree through a
reference to an interior node. -/
def Node.attachAt : Node → List Nat → Tile → Except PyError (Node × List Nat)
  | n, [], t =>
    match n.add_child t with
    | .error e => .error e
    | .ok r => .ok (r.1, [n.children.length])
  | n, i :: rest, t =>
    match n.children[i]? with
    | none => .error .attrError
    | some c =>
      match Node.attachAt c rest t with
      | .error e => .error e
      | .ok r =>
        .ok (Node.mk n.tile n.max_children n.orientation (n.children.set i r.1), i :: r.2)

mutual

/-- Paths of the leaves of a node, in the same depth-first
left-to-right order as Node.leaves. -/
def Node.leafPaths : Node → List (List Nat)
  | .mk _ _ _ cs => if cs.isEmpty then [[]] else Node.leafPathsList 0 cs

/-- Leaf paths of each node of a list, each prefixed by its index. -/
def Node.leafPathsList : Nat → List Node → List (List Nat)
  | _, [] => []
  | i, c :: cs => (c.leafPaths).map (fun p => i :: p) ++ Node.leafPathsList (i+1) cs

end

/-- Path form of Node.find_attach_position: the path of the first
leaf whose bottom is among the ends of the tile. -/
def Node.find_attach_path (n : Node) (t : Tile) : Option (List Nat) :=
  n.leafPaths.find? (fun p =>
    match n.getPath p with
    | some l => decide (l.bottom ∈ t.ends)
    | none => false)

/-- The root specialization: capacity 4 and NORMAL orientation,
regardless of the tile (source: Root.__init__, together with the
root setter of Game forcing NORMAL orientation). -/
def Root.init (t : Tile) : Node :=
  Node.mk t 4 Orient.NORMAL []

/-- The states of the game: ROOT while the four arms of the root must
be filled, OPEN for free play, CHICKIE while a chicken foot must be
completed (source: Game.State). -/
inductive GameState where
  | ROOT
  | OPEN
  | CHICKIE
deriving DecidableEq

/-- The part of the Game object that the turn-loop state machine
reads and writes: the current state, the board tree, and the
remembered in-progress chicken foot (a path, modelling the Python
node reference self.current_chickie). -/
structure Game where
  state : GameState
  root : Node
  current_chickie : Option (List Nat)

/-- Update state in reaction to a tile being played under the node at
the given parent path (source: Game._handle_play).  First the tile is
added to the board; then the state transitions are determined, in the
order of the source if-elif chain.  Dereferencing an absent
current_chickie is the AttributeError case. -/
def Game.handle_play (g : Game) (t : Tile) (parent : List Nat) : Except PyError Game :=
  match Node.attachAt g.root parent t with
  | .error e => .error e
  | .ok r =>
    let newRoot := r.1
    let childPath := r.2
    if g.state = GameState.ROOT ∧ newRoot.children.length = 4 then
      .ok (Game.mk GameState.OPEN newRoot g.current_chickie)
    else if t.is_double then
      .ok (Game.mk GameState.CHICKIE newRoot (some childPath))
    else if g.state = GameState.CHICKIE then
      match g.current_chickie with
      | none => .error .attrError
      | some p =>
        match newRoot.getPath p with
        | none => .error .attrError
        | some cnode =>
          if cnode.children.length = 3 then
            .ok (Game.mk GameState.OPEN newRoot none)
          else
            .ok (Game.mk g.state newRoot g.current_chickie)
    else
      .ok (Game.mk g.state newRoot g.current_chickie)

/-- The tiles of a hand that the player could play in the current
game state (source: Game._opportunities).  In the CHICKIE state the
tiles containing the first pip of the chicken-foot tile, in the ROOT
state the tiles containing the first pip of the root tile, otherwise
the tiles with an end among the bottoms of the current leaves.
none models the AttributeError of dereferencing an absent chicken
foot. -/
def Game.opportunities (g : Game) (hand : List Tile) : Option (List Tile) :=
  if g.state = GameState.CHICKIE then
    match g.current_chickie with
    | none => none
    | some p =>
      match g.root.getPath p with
      | none => none
      | some cnode => some (hand.filter (fun t => decide (cnode.tile.a ∈ t.ends)))
  else if g.state = GameState.ROOT then
    some (hand.filter (fun t => decide (g.root.tile.a ∈ t.ends)))
  else
    some (hand.filter (fun t => t.ends.any
      (fun e => (g.root.leaves.map Node.bottom).contains e)))

/-- The second loop of Game._round_over: whether some player has at
least one opportunity, visiting hands in order and propagating the
crash of an undefined opportunity computation. -/
def Game.anyOpportunity (g : Game) : List (List Tile) → Option Bool
  | [] => some false
  | h :: hs =>
    match g.opportunities h with
    | none => none
    | some l => if l.isEmpty then Game.anyOpportunity g hs else some true

/-- Whether this round is finished: true if some hand is empty,
false if some player has an opportunity, otherwise true exactly when
the boneyard is empty (source: Game._round_over). -/
def Game.round_over (g : Game) (hands : List (List Tile)) (pool : List Tile) : Option Bool :=
  if hands.any List.isEmpty then some true
  else
    match g.anyOpportunity hands with
    | none => none
    | some b => if b then some false else some pool.isEmpty

/-- Add a tile into a player's hand (source: Player.add_tile).  The
hand is a list of dynamic values: the argument is appended whatever
it is, in particular the absent result of a draw from an empty pool. -/
def Player.add_tile (hand : List (Option Tile)) (t : Option Tile) : List (Option Tile) :=
  hand ++ [t]

/-- Remove and return the first tile of the hand with ends x and y in
either order; absent when no such tile is held (source: Player.fetch_tile). -/
def Player.fetch_tile : List Tile → Nat → Nat → Option Tile × List Tile
  | [], _, _ => (none, [])
  | t :: rest, x, y =>
    if (t.a = x ∧ t.b = y) ∨ (t.a = y ∧ t.b = x) then (some t, rest)
    else
      let r := Player.fetch_tile rest x y
      (r.1, t :: r.2)

/-- Sum of the values of the tiles remaining in the hand
(source: Player.score). -/
def Player.score (hand : List Tile) : Nat :=
  (hand.map Tile.value).sum

/-- The else branch of Game._root_tile_turn: the root tile was not
found, so every player in order draws one tile from the boneyard and
add_tile appends the result, whatever it is, to their hand. -/
def rootDrawAll : List (List (Option Tile)) → List Tile → List Nat →
    List (List (Option Tile)) × List Tile
  | [], pool, _ => ([], pool)
  | h :: hs, pool, picks =>
    let d := Boneyard.draw pool (picks.headD 0)
    let rest := rootDrawAll hs d.2 picks.tail
    (Player.add_tile h d.1 :: rest.1, rest.2)

/-- The attachment parent chosen by the turn loop for a play of the
given tile: the remembered chicken foot in the CHICKIE state, the
root itself in the ROOT state, and the first matching open leaf in
the OPEN state (source: Game.run, the parent selection before
_handle_play). -/
def Game.parentFor (g : Game) (t : Tile) : Option (List Nat) :=
  match g.state with
  | GameState.CHICKIE => g.current_chickie
  | GameState.ROOT => some []
  | GameState.OPEN => g.root.find_attach_path t

/-- The game states reachable by the turn loop of Game.run: the loop
starts in the ROOT state with a fresh root node and no remembered
chicken foot, and each successful play goes through handle_play at
the parent the loop selects.  Turns that only draw or skip leave this
part of the game unchanged. -/
inductive Reachable : Game → Prop
  | init (t : Tile) : Reachable (Game.mk GameState.ROOT (Root.init t) none)
  | step {g g' : Game} (t : Tile) (p : List Nat) :
      Reachable g → g.parentFor t = some p → g.handle_play t p = .ok g' → Reachable g'

/-- A concrete board tree: root (9,9) with arms (9,1) and (9,2) and
grandchildren (1,0) and (2,3), as in the leaves example of the spec. -/
def exTree : Node :=
  Node.mk (Tile.mk 9 9) 4 Orient.NORMAL
    [Node.mk (Tile.mk 9 1) 1 Orient.NORMAL [Node.mk (Tile.mk 1 0) 1 Orient.NORMAL []],
     Node.mk (Tile.mk 9 2) 1 Orient.NORMAL [Node.mk (Tile.mk 2 3) 1 Orient.NORMAL []]]

/-- A concrete root with three arms already attached. -/
def exRootThree : Node :=
  Node.mk (Tile.mk 9 9) 4 Orient.NORMAL
    [Node.mk (Tile.mk 9 1) 1 Orient.NORMAL [], Node.mk (Tile.mk 9 2) 1 Orient.NORMAL [],
     Node.mk (Tile.mk 9 3) 1 Orient.NORMAL []]

/-- The game in the ROOT state with three of the four arms filled. -/
def exGameRootThree : Game := Game.mk GameState.ROOT exRootThree none

/-- The game right after the double (9,9) was played under the (9,9)
root as its first arm, opening a chicken foot. -/
def exGameChickie : Game :=
  Game.mk GameState.CHICKIE
    (Node.mk (Tile.mk 9 9) 4 Orient.NORMAL [Node.mk (Tile.mk 9 9) 3 Orient.NORMAL []])
    (some [0])

/-! ## General lemmas about the embedded operations -/

/-- A successful find? result is a satisfying element preceded only by
elements that fail the predicate. -/
lemma find_eq_some_split {α : Type} (p : α → Bool) :
    ∀ (l : List α) (x : α), l.find? p = some x →
      p x = true ∧ ∃ l1 l2, l = l1 ++ x :: l2 ∧ ∀ y ∈ l1, p y = false := by
  intro l
  induction l with
  | nil => intro x h; simp [List.find?] at h
  | cons a as ih =>
    intro x h
    by_cases hp : p a = true
    · rw [List.find?_cons_of_pos _ hp] at h
      cases h
      exact ⟨hp, [], as, rfl, by simp⟩
    · rw [List.find?_cons_of_neg _ (by simpa using hp)] at h
      obtain ⟨hx, l1, l2, hsplit, hall⟩ := ih x h
      refine ⟨hx, a :: l1, l2, by rw [hsplit]; rfl, ?_⟩
      intro y hy
      rcases List.mem_cons.mp hy with rfl | hy2
      · simpa using hp
      · exact hall y hy2

/-- Membership in the ends of a tile, unfolded. -/
lemma mem_ends_iff (t : Tile) (x : Nat) : x ∈ t.ends ↔ x = t.a ∨ x = t.b := by
  simp [Tile.ends]

/-- Shape of a successful add_child: the parent keeps its own data and
gains the new child at the end of its children. -/
lemma add_child_ok_shape {n : Node} {t : Tile} {r : Node × Node}
    (h : n.add_child t = .ok r) :
    r.1 = Node.mk n.tile n.max_children n.orientation (n.children ++ [r.2]) ∧
    r.2 = Node.mk t (if t.is_double then 3 else 1)
      (if n.bottom = t.a then Orient.NORMAL else Orient.INVERTED) [] := by
  unfold Node.add_child at h
  split at h
  · exact absurd h (by simp)
  · split at h
    · cases h
      exact ⟨rfl, rfl⟩
    · exact absurd h (by simp)

/-! ## C8: scoring -/

/-- C8: a player's score is the sum of the values of the tiles in the
hand, where the value of a tile is the sum of its two pip counts
except the double zero, which is worth the configured constant 50; an
empty hand scores 0, a hand of (3,3) scores 6 and a hand of (0,0)
scores 50. -/
theorem score_sum_values :
    (∀ t : Tile, t.value = if t.a = 0 ∧ t.b = 0 then DOUBLE_BLANK_SCORE else t.a + t.b) ∧
    (∀ hand : List Tile, Player.score hand = (hand.map Tile.value).sum) ∧
    Player.score [] = 0 ∧
    Player.score [Tile.mk 3 3] = 6 ∧
    Player.score [Tile.mk 0 0] = 50 := by
    refine ⟨?_, fun _ => rfl, rfl, rfl, rfl⟩
    intro t
    rw [Tile.value]
    by_cases h : t.a + t.b = 0
    · rw [if_pos h, if_pos (by omega)]
    · rw [if_neg h, if_neg (by omega)]

/-! ## C5: attaching a tile under a node -/

/-- C5: attaching a tile to a node fails with the capacity error when
the node already holds its maximum number of children; otherwise it
fails with the mismatch error when neither end of the tile equals the
node's bottom; otherwise it appends and returns a new child whose
capacity is 3 for a double and 1 otherwise, and whose orientation is
NORMAL exactly when the parent's bottom equals the tile's first pip. -/
theorem add_child_cases (n : Node) (t : Tile) :
    (n.children.length = n.max_children → n.add_child t = .error .nodeFull) ∧
    (n.children.length ≠ n.max_children → n.bottom ≠ t.a → n.bottom ≠ t.b →
      n.add_child t = .error .valueError) ∧
    (n.children.length ≠ n.max_children → (n.bottom = t.a ∨ n.bottom = t.b) →
      ∃ c : Node,
        n.add_child t =
          .ok (Node.mk n.tile n.max_children n.orientation (n.children ++ [c]), c) ∧
        c.tile = t ∧ c.children = [] ∧
        c.max_children = (if t.is_double then 3 else 1) ∧
        c.orientation = (if n.bottom = t.a then Orient.NORMAL else Orient.INVERTED)) := by
    refine ⟨?_, ?_, ?_⟩
    · intro h
      rw [Node.add_child, if_pos h]
    · intro h ha hb
      rw [Node.add_child, if_neg h, if_neg (by rw [mem_ends_iff]; tauto)]
    · intro h hm
      refine ⟨Node.mk t (if t.is_double then 3 else 1)
        (if n.bottom = t.a then Orient.NORMAL else Orient.INVERTED) [], ?_, rfl, rfl, rfl, rfl⟩
      rw [Node.add_child, if_neg h, if_pos (by rw [mem_ends_iff]; tauto)]

/-- Witness for C5 at concrete inputs: attaching (9,1) under a fresh
(9,9) root succeeds with a capacity 1 child in NORMAL orientation, and
attaching under a root that already has four children fails with the
capacity error. -/
theorem add_child_cases_w :
    (∃ c : Node,
      (Root.init (Tile.mk 9 9)).add_child (Tile.mk 9 1) =
        .ok (Node.mk (Tile.mk 9 9) 4 Orient.NORMAL ([] ++ [c]), c) ∧
      c.max_children = 1 ∧ c.orientation = Orient.NORMAL) ∧
    (Node.mk (Tile.mk 9 9) 4 Orient.NORMAL
        [Node.mk (Tile.mk 9 1) 1 Orient.NORMAL [], Node.mk (Tile.mk 9 2) 1 Orient.NORMAL [],
         Node.mk (Tile.mk 9 3) 1 Orient.NORMAL [], Node.mk (Tile.mk 9 4) 1 Orient.NORMAL []]).add_child
      (Tile.mk 9 5) = .error .nodeFull := by
    constructor
    · obtain ⟨c, h1, h2, h3, h4, h5⟩ :=
        (add_child_cases (Root.init (Tile.mk 9 9)) (Tile.mk 9 1)).2.2 (by decide) (by decide)
      exact ⟨c, h1, by rw [h4]; rfl, by rw [h5]; rfl⟩
    · exact (add_child_cases _ (Tile.mk 9 5)).1 (by decide)

/-! ## C4: the draw step of a failed root-finding turn -/

/-- C4 is refuted by the code: in the branch of the root-finding turn
where nobody produced the root tile, each player's hand is extended by
the raw draw result, so with an empty pool every hand receives the
absent value none (Python None) and is therefore changed, not left
unchanged.  The subsequent root-finding turn would then crash in
fetch_tile when reading the pips of that None. -/
theorem root_draw_empty_pool_appends :
    (∀ (hands : List (List (Option Tile))) (picks : List Nat),
      rootDrawAll hands [] picks = (hands.map (fun h => h ++ [none]), [])) ∧
    (∀ h : List (Option Tile), (h ++ [none]).length = h.length + 1) ∧
    rootDrawAll [[some (Tile.mk 1 1)], []] [] [0, 0] =
      ([[some (Tile.mk 1 1), none], [none]], []) := by
    refine ⟨?_, ?_, rfl⟩
    · intro hands
      induction hands with
      | nil => intro picks; rfl
      | cons h hs ih =>
        intro picks
        simp [rootDrawAll, Boneyard.draw, Player.add_tile, ih]
    · intro h
      simp

/-! ## C6: finding the open attachment position -/

/-- C6: find_attach_position returns the first leaf, in the
depth-first left-to-right order of Node.leaves, whose bottom value is
among the two ends of the tile; it yields the no-attachment error
(modelled by none) exactly when no leaf of the tree matches; and a
tree consisting of only the root has the root as its single leaf. -/
theorem find_attach_position_first_leaf (n : Node) (t : Tile) :
    (∀ m : Node, n.find_attach_position t = some m →
      m.bottom ∈ t.ends ∧
      ∃ l1 l2, n.leaves = l1 ++ m :: l2 ∧ ∀ l ∈ l1, l.bottom ∉ t.ends) ∧
    (n.find_attach_position t = none ↔ ∀ l ∈ n.leaves, l.bottom ∉ t.ends) ∧
    (n.children = [] → n.leaves = [n]) := by
    refine ⟨?_, ?_, ?_⟩
    · intro m h
      obtain ⟨hm, l1, l2, hsplit, hall⟩ := find_eq_some_split _ _ _ h
      refine ⟨by simpa using hm, l1, l2, hsplit, ?_⟩
      intro l hl
      simpa using hall l hl
    · rw [Node.find_attach_position, List.find?_eq_none]
      constructor
      · intro h l hl
        simpa using h l hl
      · intro h l hl
        simpa using h l hl
    · intro h
      cases n with
      | mk t0 m0 o0 cs =>
        simp only [Node.children] at h
        subst h
        rw [Node.leaves]
        rfl

/-- Witness for C6: in the example tree the first matching leaf for
the tile (5,3) is the (2,3) node, and all leaves before it fail. -/
theorem find_attach_position_first_leaf_w :
    (Node.mk (Tile.mk 2 3) 1 Orient.NORMAL []).bottom ∈ (Tile.mk 5 3).ends ∧
    ∃ l1 l2, exTree.leaves = l1 ++ (Node.mk (Tile.mk 2 3) 1 Orient.NORMAL []) :: l2 ∧
      ∀ l ∈ l1, l.bottom ∉ (Tile.mk 5 3).ends :=
  (find_attach_position_first_leaf exTree (Tile.mk 5 3)).1 _ rfl

/-! ## C2: opportunities per game state -/

/-- C2: the opportunity set is, in the CHICKIE state, exactly the hand
tiles carrying the chicken-foot tile's first pip among their ends; in
the ROOT state exactly the hand tiles carrying the root tile's first
pip among their ends; and in the OPEN state exactly the hand tiles
with at least one end among the bottom values of the current leaves. -/
theorem opportunities_by_state (g : Game) (hand : List Tile) :
    (∀ p cnode, g.state = GameState.CHICKIE → g.current_chickie = some p →
      g.root.getPath p = some cnode →
      ∃ l, g.opportunities hand = some l ∧
        ∀ t : Tile, t ∈ l ↔ t ∈ hand ∧ (cnode.tile.a = t.a ∨ cnode.tile.a = t.b)) ∧
    (g.state = GameState.ROOT →
      ∃ l, g.opportunities hand = some l ∧
        ∀ t : Tile, t ∈ l ↔ t ∈ hand ∧ (g.root.tile.a = t.a ∨ g.root.tile.a = t.b)) ∧
    (g.state = GameState.OPEN →
      ∃ l, g.opportunities hand = some l ∧
        ∀ t : Tile, t ∈ l ↔ t ∈ hand ∧
          (t.a ∈ g.root.leaves.map Node.bottom ∨ t.b ∈ g.root.leaves.map Node.bottom)) := by
    refine ⟨?_, ?_, ?_⟩
    · intro p cnode hst hp hg
      have he : g.opportunities hand =
          some (hand.filter (fun t => decide (cnode.tile.a ∈ t.ends))) := by
        simp [Game.opportunities, hst, hp, hg]
      refine ⟨_, he, ?_⟩
      intro t
      simp [List.mem_filter, Tile.ends]
    · intro hst
      have he : g.opportunities hand =
          some (hand.filter (fun t => decide (g.root.tile.a ∈ t.ends))) := by
        simp [Game.opportunities, hst]
      refine ⟨_, he, ?_⟩
      intro t
      simp [List.mem_filter, Tile.ends]
    · intro hst
      have he : g.opportunities hand =
          some (hand.filter (fun t => t.ends.any
            (fun e => (g.root.leaves.map Node.bottom).contains e))) := by
        simp [Game.opportunities, hst]
      refine ⟨_, he, ?_⟩
      intro t
      simp [List.mem_filter, List.any_eq_true, Tile.ends]

/-- Witness for C2: the three state branches evaluated on concrete
games and a concrete two-tile hand. -/
theorem opportunities_by_state_w :
    (∃ l, exGameChickie.opportunities [Tile.mk 9 1, Tile.mk 2 3] = some l ∧
      ∀ t : Tile, t ∈ l ↔ t ∈ [Tile.mk 9 1, Tile.mk 2 3] ∧
        ((Node.mk (Tile.mk 9 9) 3 Orient.NORMAL []).tile.a = t.a ∨
         (Node.mk (Tile.mk 9 9) 3 Orient.NORMAL []).tile.a = t.b)) ∧
    (∃ l, exGameRootThree.opportunities [Tile.mk 9 1, Tile.mk 2 3] = some l ∧
      ∀ t : Tile, t ∈ l ↔ t ∈ [Tile.mk 9 1, Tile.mk 2 3] ∧
        (exGameRootThree.root.tile.a = t.a ∨ exGameRootThree.root.tile.a = t.b)) ∧
    (∃ l, (Game.mk GameState.OPEN exTree none).opportunities [Tile.mk 9 1, Tile.mk 2 3] = some l ∧
      ∀ t : Tile, t ∈ l ↔ t ∈ [Tile.mk 9 1, Tile.mk 2 3] ∧
        (t.a ∈ exTree.leaves.map Node.bottom ∨ t.b ∈ exTree.leaves.map Node.bottom)) :=
  ⟨(opportunities_by_state exGameChickie [Tile.mk 9 1, Tile.mk 2 3]).1 [0]
      (Node.mk (Tile.mk 9 9) 3 Orient.NORMAL []) rfl rfl rfl,
   (opportunities_by_state exGameRootThree [Tile.mk 9 1, Tile.mk 2 3]).2.1 rfl,
   (opportunities_by_state (Game.mk GameState.OPEN exTree none) [Tile.mk 9 1, Tile.mk 2 3]).2.2 rfl⟩

/-! ## C3: the round-over check -/

/-- When the chicken-foot reference is intact whenever the state needs
it, the opportunity computation never crashes. -/
lemma opportunities_total (g : Game)
    (hdef : g.state = GameState.CHICKIE →
      ∃ p cnode, g.current_chickie = some p ∧ g.root.getPath p = some cnode) :
    ∀ hand : List Tile, ∃ l, g.opportunities hand = some l := by
    intro hand
    by_cases hst : g.state = GameState.CHICKIE
    · obtain ⟨p, cnode, hp, hg⟩ := hdef hst
      exact ⟨hand.filter (fun t => decide (cnode.tile.a ∈ t.ends)),
        by simp [Game.opportunities, hst, hp, hg]⟩
    · by_cases hst2 : g.state = GameState.ROOT
      · exact ⟨hand.filter (fun t => decide (g.root.tile.a ∈ t.ends)),
          by simp [Game.opportunities, hst, hst2]⟩
      · exact ⟨hand.filter (fun t => t.ends.any
            (fun e => (g.root.leaves.map Node.bottom).contains e)),
          by simp [Game.opportunities, hst, hst2]⟩

/-- The loop over players checking for an opportunity: it never
crashes when the opportunity computation is total, and it reports
false exactly when every hand has an empty opportunity list. -/
lemma anyOpportunity_shape (g : Game)
    (hdef : g.state = GameState.CHICKIE →
      ∃ p cnode, g.current_chickie = some p ∧ g.root.getPath p = some cnode) :
    ∀ hands : List (List Tile), ∃ b, g.anyOpportunity hands = some b ∧
      (b = false ↔ ∀ h ∈ hands, g.opportunities h = some []) := by
    intro hands
    induction hands with
    | nil => exact ⟨false, rfl, by simp⟩
    | cons h hs ih =>
      obtain ⟨l, hl⟩ := opportunities_total g hdef h
      obtain ⟨b, hb, hiff⟩ := ih
      by_cases hemp : l.isEmpty
      · refine ⟨b, ?_, ?_⟩
        · simp only [Game.anyOpportunity, hl]
          rw [if_pos hemp]
          exact hb
        · rw [hiff]
          constructor
          · intro hall h2 hh2
            rcases List.mem_cons.mp hh2 with rfl | hh3
            · rw [hl, List.isEmpty_iff.mp hemp]
            · exact hall h2 hh3
          · intro hall h2 hh2
            exact hall h2 (List.mem_cons_of_mem _ hh2)
      · refine ⟨true, ?_, ?_⟩
        · simp only [Game.anyOpportunity, hl]
          rw [if_neg hemp]
        · simp only [Bool.true_eq_false, false_iff]
          intro hall
          have := hall h (List.mem_cons_self h hs)
          rw [hl] at this
          cases this
          simp at hemp

/-- C3: the round-over check returns true exactly when some hand is
empty, or when no player has any opportunity and the draw pool is
empty; in every other situation it returns false. -/
theorem round_over_iff (g : Game) (hands : List (List Tile)) (pool : List Tile)
    (hdef : g.state = GameState.CHICKIE →
      ∃ p cnode, g.current_chickie = some p ∧ g.root.getPath p = some cnode) :
    ∃ b, g.round_over hands pool = some b ∧
      (b = true ↔ (∃ h ∈ hands, h = []) ∨
        ((∀ h ∈ hands, g.opportunities h = some []) ∧ pool = [])) := by
    by_cases hemp : hands.any List.isEmpty
    · refine ⟨true, ?_, ?_⟩
      · rw [Game.round_over, if_pos hemp]
      · simp only [true_iff]
        left
        obtain ⟨h, hh, hhe⟩ := List.any_eq_true.mp hemp
        exact ⟨h, hh, List.isEmpty_iff.mp hhe⟩
    · obtain ⟨b0, hb0, hiff0⟩ := anyOpportunity_shape g hdef hands
      have hnoemp : ¬∃ h ∈ hands, h = [] := by
        intro ⟨h, hh, hhe⟩
        exact hemp (List.any_eq_true.mpr ⟨h, hh, by rw [hhe]; rfl⟩)
      cases b0 with
      | true =>
        refine ⟨false, ?_, ?_⟩
        · rw [Game.round_over, if_neg hemp, hb0]
          rfl
        · simp only [Bool.false_eq_true, false_iff]
          intro hor
          rcases hor with hex | ⟨hall, _⟩
          · exact hnoemp hex
          · have := hiff0.mpr hall
            cases this
      | false =>
        refine ⟨pool.isEmpty, ?_, ?_⟩
        · rw [Game.round_over, if_neg hemp, hb0]
          rfl
        · constructor
          · intro hpe
            right
            exact ⟨hiff0.mp rfl, List.isEmpty_iff.mp hpe⟩
          · intro hor
            rcases hor with hex | ⟨_, hpe⟩
            · exact absurd hex hnoemp
            · rw [hpe]
              rfl

/-- Witness for C3: a single player whose only tile matches nothing,
with an empty pool: the round is over. -/
theorem round_over_iff_w :
    ∃ b, (Game.mk GameState.OPEN (Root.init (Tile.mk 9 9)) none).round_over
        [[Tile.mk 3 4]] [] = some b ∧
      (b = true ↔ (∃ h ∈ [[Tile.mk 3 4]], h = ([] : List Tile)) ∨
        ((∀ h ∈ [[Tile.mk 3 4]],
          (Game.mk GameState.OPEN (Root.init (Tile.mk 9 9)) none).opportunities h = some []) ∧
         ([] : List Tile) = [])) :=
  round_over_iff (Game.mk GameState.OPEN (Root.init (Tile.mk 9 9)) none) [[Tile.mk 3 4]] []
    (fun h => absurd h (by decide))

/-! ## The state machine of the turn loop -/

/-- Full case analysis of a successful handle_play: the attach result
becomes the new board, and exactly one of the four transition rules of
the source if-elif chain applies, in order. -/
lemma handle_play_cases {g : Game} {t : Tile} {parent : List Nat} {g' : Game}
    (h : g.handle_play t parent = .ok g') :
    ∃ newRoot cp, Node.attachAt g.root parent t = .ok (newRoot, cp) ∧ g'.root = newRoot ∧
    ((g.state = GameState.ROOT ∧ newRoot.children.length = 4 ∧
        g'.state = GameState.OPEN ∧ g'.current_chickie = g.current_chickie) ∨
     (¬(g.state = GameState.ROOT ∧ newRoot.children.length = 4) ∧ t.is_double = true ∧
        g'.state = GameState.CHICKIE ∧ g'.current_chickie = some cp) ∨
     (¬(g.state = GameState.ROOT ∧ newRoot.children.length = 4) ∧ t.is_double = false ∧
        g.state = GameState.CHICKIE ∧
        ∃ p cnode, g.current_chickie = some p ∧ newRoot.getPath p = some cnode ∧
          ((cnode.children.length = 3 ∧ g'.state = GameState.OPEN ∧
              g'.current_chickie = none) ∨
           (cnode.children.length ≠ 3 ∧ g'.state = g.state ∧
              g'.current_chickie = g.current_chickie))) ∨
     (¬(g.state = GameState.ROOT ∧ newRoot.children.length = 4) ∧ t.is_double = false ∧
        g.state ≠ GameState.CHICKIE ∧ g'.state = g.state ∧
        g'.current_chickie = g.current_chickie)) := by
  unfold Game.handle_play at h
  cases hA : Node.attachAt g.root parent t with
  | error e => rw [hA] at h; exact Except.noConfusion h
  | ok r =>
    obtain ⟨newRoot, cp⟩ := r
    simp only [hA] at h
    refine ⟨newRoot, cp, rfl, ?_⟩
    by_cases h1 : g.state = GameState.ROOT ∧ newRoot.children.length = 4
    · rw [if_pos h1] at h
      injection h with h2
      subst h2
      exact ⟨rfl, Or.inl ⟨h1.1, h1.2, rfl, rfl⟩⟩
    · rw [if_neg h1] at h
      by_cases h2 : t.is_double = true
      · rw [if_pos h2] at h
        injection h with h3
        subst h3
        exact ⟨rfl, Or.inr (Or.inl ⟨h1, h2, rfl, rfl⟩)⟩
      · rw [if_neg h2] at h
        by_cases h3 : g.state = GameState.CHICKIE
        · rw [if_pos h3] at h
          split at h
          · exact Except.noConfusion h
          · rename_i p hc
            split at h
            · exact Except.noConfusion h
            · rename_i cnode hg
              by_cases h4 : cnode.children.length = 3
              · rw [if_pos h4] at h
                injection h with h5
                subst h5
                exact ⟨rfl, Or.inr (Or.inr (Or.inl
                  ⟨h1, by simpa using h2, h3, p, cnode, hc, hg,
                   Or.inl ⟨h4, rfl, rfl⟩⟩))⟩
              · rw [if_neg h4] at h
                injection h with h5
                subst h5
                exact ⟨rfl, Or.inr (Or.inr (Or.inl
                  ⟨h1, by simpa using h2, h3, p, cnode, hc, hg,
                   Or.inr ⟨h4, rfl, rfl⟩⟩))⟩
        · rw [if_neg h3] at h
          injection h with h5
          subst h5
          exact ⟨rfl, Or.inr (Or.inr (Or.inr ⟨h1, by simpa using h2, h3, rfl, rfl⟩))⟩

/-- A successful attach at the empty path appends exactly one child to
the root's children. -/
lemma attachAt_nil_children {n : Node} {t : Tile} {r : Node × List Nat}
    (h : Node.attachAt n [] t = .ok r) :
    ∃ c : Node, r.1.children = n.children ++ [c] := by
  unfold Node.attachAt at h
  cases hAC : n.add_child t with
  | error e => rw [hAC] at h; exact Except.noConfusion h
  | ok q =>
    rw [hAC] at h
    injection h with h2
    obtain ⟨hs, _⟩ := add_child_ok_shape hAC
    refine ⟨q.2, ?_⟩
    rw [← h2, hs]
    rfl

/-- One successful play preserves the consistency between the CHICKIE
state and the presence of a remembered chicken foot. -/
lemma handle_play_keeps_chickie {g g' : Game} {t : Tile} {parent : List Nat}
    (hinv : g.state = GameState.CHICKIE ↔ g.current_chickie ≠ none)
    (h : g.handle_play t parent = .ok g') :
    g'.state = GameState.CHICKIE ↔ g'.current_chickie ≠ none := by
  obtain ⟨newRoot, cp, hA, hroot, hcases⟩ := handle_play_cases h
  rcases hcases with ⟨hst, _, hs', hc'⟩ | ⟨_, _, hs', hc'⟩ |
    ⟨_, _, hst, p, cnode, hp, hg, hsub⟩ | ⟨_, _, hst, hs', hc'⟩
  · have hnone : g.current_chickie = none := by
      by_contra hne
      have := hinv.mpr hne
      rw [hst] at this
      exact absurd this (by decide)
    rw [hs', hc', hnone]
    simp
  · rw [hs', hc']
    simp
  · rcases hsub with ⟨_, hs', hc'⟩ | ⟨_, hs', hc'⟩
    · rw [hs', hc']
      simp
    · rw [hs', hc', hst, hp]
      simp
  · rw [hs', hc']
    exact hinv

/-- Along every run of the turn loop, the CHICKIE state and the
remembered chicken foot are consistent. -/
lemma reachable_chickie_consistent {g : Game} (hr : Reachable g) :
    g.state = GameState.CHICKIE ↔ g.current_chickie ≠ none := by
  induction hr with
  | init t => simp
  | step t p hr hpar hplay ih => exact handle_play_keeps_chickie ih hplay

/-! ## C1: the transition rules after a successful attach -/

/-- C1: after every successful attach of the turn loop the state is
updated by exactly the four source rules in precedence order: a ROOT
state whose root reached 4 children becomes OPEN (even for a double);
otherwise a double makes the state CHICKIE and remembers the new
node; otherwise a CHICKIE state whose chicken foot reached 3 children
becomes OPEN and the memory is cleared; otherwise nothing changes. -/
theorem handle_play_transition_rules (g : Game) (t : Tile) (parent : List Nat) (g' : Game)
    (h : g.handle_play t parent = .ok g') :
    (g.state = GameState.ROOT ∧ g'.root.children.length = 4 →
       g'.state = GameState.OPEN ∧ g'.current_chickie = g.current_chickie) ∧
    (¬(g.state = GameState.ROOT ∧ g'.root.children.length = 4) → t.is_double = true →
       g'.state = GameState.CHICKIE ∧
       ∃ cp, Node.attachAt g.root parent t = .ok (g'.root, cp) ∧
         g'.current_chickie = some cp) ∧
    (¬(g.state = GameState.ROOT ∧ g'.root.children.length = 4) → t.is_double = false →
       g.state = GameState.CHICKIE →
       ∀ p cnode, g.current_chickie = some p → g'.root.getPath p = some cnode →
         (cnode.children.length = 3 →
            g'.state = GameState.OPEN ∧ g'.current_chickie = none) ∧
         (cnode.children.length ≠ 3 →
            g'.state = g.state ∧ g'.current_chickie = g.current_chickie)) ∧
    (¬(g.state = GameState.ROOT ∧ g'.root.children.length = 4) → t.is_double = false →
       g.state ≠ GameState.CHICKIE →
       g'.state = g.state ∧ g'.current_chickie = g.current_chickie) := by
    obtain ⟨newRoot, cp, hA, hroot, hcases⟩ := handle_play_cases h
    subst hroot
    rcases hcases with ⟨hst, h4, hs', hc'⟩ | ⟨hn, hd, hs', hc'⟩ |
      ⟨hn, hd, hst, p, cnode, hp, hg, hsub⟩ | ⟨hn, hd, hst, hs', hc'⟩
    · refine ⟨fun _ => ⟨hs', hc'⟩, fun hn _ => absurd ⟨hst, h4⟩ hn,
        fun hn _ _ => absurd ⟨hst, h4⟩ hn, fun hn _ _ => absurd ⟨hst, h4⟩ hn⟩
    · refine ⟨fun hc => absurd hc hn, fun _ _ => ⟨hs', cp, hA, hc'⟩,
        fun _ hnd _ => absurd hd (by rw [hnd]; decide),
        fun _ hnd _ => absurd hd (by rw [hnd]; decide)⟩
    · refine ⟨fun hc => absurd hc hn, fun _ hdt => absurd hdt (by rw [hd]; decide),
        ?_, fun _ _ hnc => absurd hst hnc⟩
      intro _ _ _ p2 cnode2 hp2 hg2
      rw [hp] at hp2
      injection hp2 with hp3
      subst hp3
      rw [hg] at hg2
      injection hg2 with hg3
      subst hg3
      rcases hsub with ⟨h3, hs', hc'⟩ | ⟨h3, hs', hc'⟩
      · exact ⟨fun _ => ⟨hs', hc'⟩, fun hne => absurd h3 hne⟩
      · exact ⟨fun heq => absurd heq h3, fun _ => ⟨hs', hc'⟩⟩
    · refine ⟨fun hc => absurd hc hn, fun _ hdt => absurd hdt (by rw [hd]; decide),
        fun _ _ hcs => absurd hcs hst, fun _ _ _ => ⟨hs', hc'⟩⟩

/-- Witness for C1: completing the fourth arm of the root with the
double (9,9) still moves the state to OPEN, not CHICKIE, and keeps no
chicken-foot memory. -/
theorem handle_play_transition_rules_w :
    ∃ g' : Game, exGameRootThree.handle_play (Tile.mk 9 9) [] = .ok g' ∧
      g'.state = GameState.OPEN ∧ g'.current_chickie = none := by
    refine ⟨Game.mk GameState.OPEN
      (Node.mk (Tile.mk 9 9) 4 Orient.NORMAL
        [Node.mk (Tile.mk 9 1) 1 Orient.NORMAL [], Node.mk (Tile.mk 9 2) 1 Orient.NORMAL [],
         Node.mk (Tile.mk 9 3) 1 Orient.NORMAL [], Node.mk (Tile.mk 9 9) 3 Orient.NORMAL []])
      none, rfl, ?_⟩
    have h := (handle_play_transition_rules exGameRootThree (Tile.mk 9 9) [] _ rfl).1
      ⟨rfl, rfl⟩
    exact ⟨h.1, h.2⟩

/-! ## C9: the fourth non-double arm -/

/-- C9: from a reachable ROOT state with three of the root's four
arms filled, a successful attach of a non-double tile to the root
moves the state to OPEN with no chicken-foot node remembered. -/
theorem root_fourth_arm_nondouble (g : Game) (t : Tile) (g' : Game)
    (hr : Reachable g) (hst : g.state = GameState.ROOT)
    (h3 : g.root.children.length = 3) (hnd : t.is_double = false)
    (h : g.handle_play t [] = .ok g') :
    g'.state = GameState.OPEN ∧ g'.current_chickie = none := by
    have hchick : g.current_chickie = none := by
      by_contra hne
      have := (reachable_chickie_consistent hr).mpr hne
      rw [hst] at this
      exact absurd this (by decide)
    obtain ⟨newRoot, cp, hA, hroot, hcases⟩ := handle_play_cases h
    have h4 : newRoot.children.length = 4 := by
      obtain ⟨c, hc⟩ := attachAt_nil_children hA
      simp only at hc
      rw [hc, List.length_append, h3]
      rfl
    rcases hcases with ⟨_, _, hs', hc'⟩ | ⟨hn, _, _, _⟩ |
      ⟨hn, _, _, _⟩ | ⟨hn, _, _, _, _⟩
    · rw [hc', hchick] at *
      exact ⟨hs', by rw [hc', hchick]⟩
    · exact absurd ⟨hst, h4⟩ hn
    · exact absurd ⟨hst, h4⟩ hn
    · exact absurd ⟨hst, h4⟩ hn

/-- Witness for C9: the concrete three-arm ROOT game is reachable by
three plays from a fresh (9,9) root, and playing the non-double (9,4)
as the fourth arm yields OPEN with no chicken foot. -/
theorem root_fourth_arm_nondouble_w :
    ∃ g' : Game, exGameRootThree.handle_play (Tile.mk 9 4) [] = .ok g' ∧
      g'.state = GameState.OPEN ∧ g'.current_chickie = none := by
    have h0 : Reachable (Game.mk GameState.ROOT (Root.init (Tile.mk 9 9)) none) :=
      Reachable.init (Tile.mk 9 9)
    have h1 : Reachable (Game.mk GameState.ROOT
        (Node.mk (Tile.mk 9 9) 4 Orient.NORMAL
          [Node.mk (Tile.mk 9 1) 1 Orient.NORMAL []]) none) :=
      Reachable.step (Tile.mk 9 1) [] h0 rfl rfl
    have h2 : Reachable (Game.mk GameState.ROOT
        (Node.mk (Tile.mk 9 9) 4 Orient.NORMAL
          [Node.mk (Tile.mk 9 1) 1 Orient.NORMAL [],
           Node.mk (Tile.mk 9 2) 1 Orient.NORMAL []]) none) :=
      Reachable.step (Tile.mk 9 2) [] h1 rfl rfl
    have h3 : Reachable exGameRootThree :=
      Reachable.step (Tile.mk 9 3) [] h2 rfl rfl
    refine ⟨Game.mk GameState.OPEN
      (Node.mk (Tile.mk 9 9) 4 Orient.NORMAL
        [Node.mk (Tile.mk 9 1) 1 Orient.NORMAL [], Node.mk (Tile.mk 9 2) 1 Orient.NORMAL [],
         Node.mk (Tile.mk 9 3) 1 Orient.NORMAL [], Node.mk (Tile.mk 9 4) 1 Orient.NORMAL []])
      none, rfl, ?_⟩
    exact root_fourth_arm_nondouble exGameRootThree (Tile.mk 9 4) _ h3 rfl rfl rfl rfl

/-! ## C10: the chicken-foot consistency invariant -/

/-- C10: in every state of the turn loop reachable after the game is
initialized to ROOT, the state is CHICKIE exactly when a chicken-foot
node is remembered; hence whenever the turn loop must attach to the
in-progress chicken foot, the selected parent is defined. -/
theorem turn_loop_chickie_inv (g : Game) (hr : Reachable g) :
    (g.state = GameState.CHICKIE ↔ g.current_chickie ≠ none) ∧
    (∀ t : Tile, g.state = GameState.CHICKIE → ∃ p, g.parentFor t = some p) := by
    have h1 := reachable_chickie_consistent hr
    refine ⟨h1, ?_⟩
    intro t hst
    have h2 := h1.mp hst
    cases hc : g.current_chickie with
    | none => exact absurd hc h2
    | some p =>
      refine ⟨p, ?_⟩
      unfold Game.parentFor
      rw [hst]
      exact hc

/-- Witness for C10: the concrete game reached by opening a chicken
foot with the double (9,9) is in the CHICKIE state and remembers a
node; the parent selected for any next play is defined. -/
theorem turn_loop_chickie_inv_w :
    (exGameChickie.state = GameState.CHICKIE ↔ exGameChickie.current_chickie ≠ none) ∧
    (∃ p, exGameChickie.parentFor (Tile.mk 9 3) = some p) := by
    have hr : Reachable exGameChickie :=
      Reachable.step (Tile.mk 9 9) [] (Reachable.init (Tile.mk 9 9)) rfl rfl
    have h := turn_loop_chickie_inv exGameChickie hr
    exact ⟨h.1, h.2 (Tile.mk 9 3) rfl⟩

/-! ## C7: the draw pool -/

/-- Peeling the outer loop of factorial_combinations. -/
lemma fc_succ (k : Nat) :
    factorial_combinations (k+1) =
      factorial_combinations k ++ (List.range (k+2)).map (fun a => (a, k+1)) := by
  unfold factorial_combinations
  rw [show k+1+1 = k+2 from rfl, List.range_succ, List.flatMap_append]
  simp [List.range_succ]

/-- Twice the number of generated pairs is (m+1)(m+2). -/
lemma fc_length (m : Nat) : (factorial_combinations m).length * 2 = (m+1) * (m+2) := by
  induction m with
  | zero => rfl
  | succ k ih =>
    rw [fc_succ, List.length_append, List.length_map, List.length_range, Nat.add_mul, ih]
    ring

/-- The pool's length for set size S. -/
lemma boneyard_len (S : Nat) : (Boneyard.init S).length = (S+1) * (S+2) / 2 := by
  have h2 : (Boneyard.init S).length * 2 = (S+1) * (S+2) := by
    rw [Boneyard.init, List.length_map]
    exact fc_length S
  omega

/-- Peeling the outer loop of the pool construction. -/
lemma boneyard_init_succ (k : Nat) :
    Boneyard.init (k+1) =
      Boneyard.init k ++ (List.range (k+2)).map (fun x => Tile.mk x (k+1)) := by
  unfold Boneyard.init
  rw [fc_succ, List.map_append, List.map_map]
  rfl

/-- Each tile occurs in the fresh pool exactly once, and only the
tiles with a ≤ b ≤ S occur. -/
lemma boneyard_count (S a b : Nat) :
    (Boneyard.init S).count (Tile.mk a b) = if a ≤ b ∧ b ≤ S then 1 else 0 := by
  induction S with
  | zero =>
    have h0 : Boneyard.init 0 = [Tile.mk 0 0] := rfl
    rw [h0, List.count_singleton]
    simp only [beq_iff_eq, Tile.mk.injEq]
    split_ifs <;> omega
  | succ k ih =>
    rw [boneyard_init_succ, List.count_append, ih]
    have hone : ∀ x : Nat, (List.range (k+2)).count x = if x < k+2 then 1 else 0 := by
      intro x
      by_cases hx : x < k+2
      · rw [if_pos hx]
        exact List.count_eq_one_of_mem (List.nodup_range _) (List.mem_range.mpr hx)
      · rw [if_neg hx]
        exact List.count_eq_zero_of_not_mem (fun hm => hx (List.mem_range.mp hm))
    have hblock : ((List.range (k+2)).map (fun x => Tile.mk x (k+1))).count (Tile.mk a b) =
        if b = k+1 ∧ a < k+2 then 1 else 0 := by
      by_cases hb : b = k+1
      · subst hb
        have hinj : Function.Injective (fun x : Nat => Tile.mk x (k+1)) := by
          intro x y hxy
          injection hxy with h1 h2
        have hcm : ((List.range (k+2)).map (fun x => Tile.mk x (k+1))).count (Tile.mk a (k+1)) =
            (List.range (k+2)).count a := by
          simpa using List.count_map_of_injective (List.range (k+2))
            (fun x : Nat => Tile.mk x (k+1)) hinj a
        rw [hcm, hone a]
        split_ifs <;> omega
      · have hnm : Tile.mk a b ∉ (List.range (k+2)).map (fun x => Tile.mk x (k+1)) := by
          intro hm
          obtain ⟨x, hx, hxy⟩ := List.mem_map.mp hm
          injection hxy with h1 h2
          exact hb h2.symm
        rw [List.count_eq_zero_of_not_mem hnm, if_neg (fun hc => hb hc.1)]
    rw [hblock]
    split_ifs <;> omega

/-- A sequence of draws yields a defined tile while the pool lasts and
the absent value afterwards. -/
lemma drawSeq_shape : ∀ (picks : List Nat) (pool : List Tile),
    ((Boneyard.drawSeq pool picks).1.length = picks.length) ∧
    (∀ x ∈ (Boneyard.drawSeq pool picks).1.take pool.length, x.isSome = true) ∧
    (∀ x ∈ (Boneyard.drawSeq pool picks).1.drop pool.length, x = none) := by
  intro picks
  induction picks with
  | nil =>
    intro pool
    refine ⟨rfl, ?_, ?_⟩ <;> simp [Boneyard.drawSeq]
  | cons pick picks ih =>
    intro pool
    by_cases hp : pool.isEmpty
    · have hpool : pool = [] := List.isEmpty_iff.mp hp
      subst hpool
      obtain ⟨ihl, iht, ihd⟩ := ih []
      refine ⟨?_, ?_, ?_⟩
      · simp [Boneyard.drawSeq, Boneyard.draw, ihl]
      · simp
      · intro x hx
        simp only [Boneyard.drawSeq, Boneyard.draw, List.drop_zero] at hx ihd ⊢
        rcases List.mem_cons.mp (by simpa using hx) with rfl | hx2
        · rfl
        · exact ihd x hx2
    · have hlen : 0 < pool.length := by
        cases pool with
        | nil => simp at hp
        | cons y ys => simp
      have hidx : pick % pool.length < pool.length := Nat.mod_lt _ hlen
      have hE : (pool.eraseIdx (pick % pool.length)).length + 1 = pool.length :=
        List.length_eraseIdx_add_one hidx
      obtain ⟨ihl, iht, ihd⟩ := ih (pool.eraseIdx (pick % pool.length))
      have hds : (Boneyard.drawSeq pool (pick :: picks)).1 =
          pool[pick % pool.length]? ::
            (Boneyard.drawSeq (pool.eraseIdx (pick % pool.length)) picks).1 := by
        simp [Boneyard.drawSeq, Boneyard.draw, hp]
      have hhd : (pool[pick % pool.length]?).isSome = true := by
        rw [List.getElem?_eq_getElem hidx]
        rfl
      obtain ⟨m, hm⟩ : ∃ m, pool.length = m + 1 := ⟨pool.length - 1, by omega⟩
      have hEm : (pool.eraseIdx (pick % pool.length)).length = m := by omega
      rw [hEm] at iht ihd
      set rest := (Boneyard.drawSeq (pool.eraseIdx (pick % pool.length)) picks).1 with hrest
      set hd0 := pool[pick % pool.length]? with hhd0
      refine ⟨?_, ?_, ?_⟩
      · rw [hds]
        simp [ihl]
      · intro x hx
        rw [hds, hm, List.take_succ_cons] at hx
        rcases List.mem_cons.mp hx with rfl | hx2
        · exact hhd
        · exact iht x hx2
      · intro x hx
        rw [hds, hm, List.drop_succ_cons] at hx
        exact ihd x hx

/-- C7: a fresh pool for set size S holds exactly (S+1)(S+2)/2 tiles,
one for each pair a ≤ b ≤ S; each successful draw removes the
returned tile's slot from the pool; and any sequence of draws yields
exactly (S+1)(S+2)/2 defined tiles followed by only absent results. -/
theorem boneyard_pool_spec (S : Nat) :
    (Boneyard.init S).length = (S+1) * (S+2) / 2 ∧
    (∀ a b : Nat, (Boneyard.init S).count (Tile.mk a b) = if a ≤ b ∧ b ≤ S then 1 else 0) ∧
    (∀ (pool : List Tile) (pick : Nat) (t : Tile) (pool2 : List Tile),
      Boneyard.draw pool pick = (some t, pool2) → t ∈ pool ∧ pool2.length + 1 = pool.length) ∧
    (∀ picks : List Nat,
      (∀ x ∈ (Boneyard.drawSeq (Boneyard.init S) picks).1.take ((S+1) * (S+2) / 2),
        x.isSome = true) ∧
      (∀ x ∈ (Boneyard.drawSeq (Boneyard.init S) picks).1.drop ((S+1) * (S+2) / 2),
        x = none)) := by
    refine ⟨boneyard_len S, fun a b => boneyard_count S a b, ?_, ?_⟩
    · intro pool pick t pool2 h
      unfold Boneyard.draw at h
      by_cases hp : pool.isEmpty
      · rw [if_pos hp] at h
        injection h with h1 h2
        exact Option.noConfusion h1
      · rw [if_neg hp] at h
        injection h with h1 h2
        have hlen : 0 < pool.length := by
          cases pool with
          | nil => simp at hp
          | cons y ys => simp
        have hidx : pick % pool.length < pool.length := Nat.mod_lt _ hlen
        constructor
        · rw [List.getElem?_eq_getElem hidx] at h1
          injection h1 with h3
          rw [← h3]
          exact List.getElem_mem _
        · rw [← h2]
          exact List.length_eraseIdx_add_one hidx
    · intro picks
      obtain ⟨_, ht, hd⟩ := drawSeq_shape picks (Boneyard.init S)
      rw [boneyard_len S] at ht hd
      exact ⟨ht, hd⟩

/-- Witness for C7: drawing with pick 0 from the fresh double-1 pool
returns the tile (0,0), which is in the pool, shrinking it by one; and
the first result of draining that pool is defined. -/
theorem boneyard_pool_spec_w :
    (Tile.mk 0 0 ∈ Boneyard.init 1 ∧
      ((Boneyard.init 1).eraseIdx 0).length + 1 = (Boneyard.init 1).length) ∧
    (some (Tile.mk 0 0)).isSome = true :=
  ⟨(boneyard_pool_spec 1).2.2.1 (Boneyard.init 1) 0 (Tile.mk 0 0)
      ((Boneyard.init 1).eraseIdx 0) rfl,
   ((boneyard_pool_spec 1).2.2.2 [0]).1 (some (Tile.mk 0 0)) (by decide)⟩
